import Mathlib

set_option maxRecDepth 40000

/-!
Verification of the paginated filtered history scanner and tool-dispatch
layer of the discord-mcp server (src/index.ts), as a shallow embedding.

Conventions of the embedding:
* machine timestamps are `Int` milliseconds (JS `Date.getTime()`);
* a JS `Date` object that may be invalid is `JSDate := Option Int`
  (`none` models an Invalid Date, whose relational comparisons are all
  false and whose `toISOString()` throws `Invalid time value`);
* optional / possibly-`undefined` JS values are `Option`;
* fallible code returns `Except String`;
* the discord.js collaborator is modelled by an `Env`: a channel history
  (newest first), the channel/auth state, and injectable remote failures.
-/

namespace DiscordMCP

/-! ## JS primitives -/

/-- JS string truthiness for an optional string (`undefined` and `""` are falsy). -/
def jsStrTruthy : Option String → Bool
  | some s => !s.isEmpty
  | none => false

/-- Models `x || d` for an optional JS string `x`. -/
def jsOrStr (v : Option String) (d : String) : String :=
  match v with
  | some s => if s.isEmpty then d else s
  | none => d

/-- Models `x || d` for an optional JS number `x` (`0` is falsy). -/
def jsOrNat (v : Option Nat) (d : Nat) : Nat :=
  match v with
  | some n => if n = 0 then d else n
  | none => d

/-- Models `x` interpolated into a JS template string (`undefined` prints as "undefined"). -/
def jsStr : Option String → String
  | some s => s
  | none => "undefined"

/-- Is `pat` an initial segment of `s`? (structural helper for substring search) -/
def charsLead : List Char → List Char → Bool
  | _, [] => true
  | [], _ :: _ => false
  | c :: cs, d :: ds => (c = d) && charsLead cs ds

/-- Does `pat` occur contiguously inside `s`? -/
def charsContain : List Char → List Char → Bool
  | [], pat => pat.isEmpty
  | c :: rest, pat => charsLead (c :: rest) pat || charsContain rest pat

/-- Models JS `s.includes(sub)`: substring containment (vacuous for the empty pattern). -/
def strIncludes (s sub : String) : Bool :=
  charsContain s.toList sub.toList

/-- Models JS `toLowerCase()` (ASCII case folding, as Lean's `Char.toLower`). -/
def lowerString (s : String) : String :=
  String.mk (s.toList.map Char.toLower)

/-- A JS `Date` value: `some t` is a valid date with epoch-milliseconds `t`,
`none` is an Invalid Date (produced by `new Date(<unparseable string>)`). -/
abbrev JSDate := Option Int

/-! ## ISO timestamp rendering (`Date.prototype.toISOString`) -/

def pad2 (n : Nat) : String :=
  if n < 10 then "0" ++ toString n else toString n

def pad3 (n : Nat) : String :=
  if n < 10 then "00" ++ toString n
  else if n < 100 then "0" ++ toString n
  else toString n

def pad4 (n : Nat) : String :=
  if n < 10 then "000" ++ toString n
  else if n < 100 then "00" ++ toString n
  else if n < 1000 then "0" ++ toString n
  else toString n

/-- Renders epoch-milliseconds as `YYYY-MM-DDTHH:mm:ss.sssZ`, the civil-date
conversion used by `Date.prototype.toISOString` (standard year range). -/
def isoString (t : Int) : String :=
  let days : Int := Int.fdiv t 86400000
  let msOfDay : Nat := (Int.fmod t 86400000).toNat
  let ms := msOfDay % 1000
  let sec := (msOfDay / 1000) % 60
  let minute := (msOfDay / 60000) % 60
  let hour := msOfDay / 3600000
  let z : Int := days + 719468
  let era : Int := Int.fdiv z 146097
  let doe : Nat := (z - era * 146097).toNat
  let yoe : Nat := (doe - doe / 1460 + doe / 36524 - doe / 146097) / 365
  let doy : Nat := doe - (365 * yoe + yoe / 4 - yoe / 100)
  let mp : Nat := (5 * doy + 2) / 153
  let day : Nat := doy - (153 * mp + 2) / 5 + 1
  let month : Nat := if mp < 10 then mp + 3 else mp - 9
  let year : Int := (yoe : Int) + era * 400 + (if month ≤ 2 then 1 else 0)
  pad4 year.toNat ++ "-" ++ pad2 month ++ "-" ++ pad2 day ++ "T"
    ++ pad2 hour ++ ":" ++ pad2 minute ++ ":" ++ pad2 sec ++ "." ++ pad3 ms ++ "Z"

/-- `toISOString()` as a fallible call: throws `Invalid time value` on an Invalid Date. -/
def dateToISO : JSDate → Except String String
  | some t => .ok (isoString t)
  | none => .error "Invalid time value"

/-! ## Data model (discord.js message view) -/

/-- An attachment of a history message (`msg.attachments` entry). -/
structure Attachment where
  name : String
  url : String
  size : Nat
  contentType : Option String
deriving Repr, DecidableEq

/-- A history message as read from the discord.js collaborator. `id` is the
snowflake identifier (numeric); `createdTimestamp` is epoch milliseconds. -/
structure Msg where
  id : Nat
  username : String
  authorId : String
  content : String
  createdTimestamp : Int
  attachments : List Attachment
  embeds : Nat
  reactions : Nat
deriving Repr, DecidableEq

/-- Projection of an attachment pushed by `getMessagesAdvanced` (includes contentType). -/
structure OutAttachment where
  name : String
  url : String
  size : Nat
  contentType : Option String
deriving Repr, DecidableEq

/-- The record pushed into `allMessages` by `getMessagesAdvanced` (index.ts lines 450-464). -/
structure OutMsg where
  id : Nat
  author : String
  authorId : String
  content : String
  timestamp : String
  attachments : List OutAttachment
  embeds : Nat
  reactions : Nat
deriving Repr, DecidableEq

def projectAttachment (a : Attachment) : OutAttachment :=
  ⟨a.name, a.url, a.size, a.contentType⟩

/-- The message projection appended to the accumulator (index.ts lines 450-464). -/
def projectMsg (m : Msg) : OutMsg :=
  ⟨m.id, m.username, m.authorId, m.content, isoString m.createdTimestamp,
    m.attachments.map projectAttachment, m.embeds, m.reactions⟩

/-! ## Environment: the discord.js collaborator -/

/-- The state of the external collaborator for one tool invocation.
`history` is the channel's full message history, newest first.
`fetchFail k` injects a rejection into the k-th batch fetch (1-based).
`channel` is the result of `channels.fetch`: `none` means not found,
`some b` means found with `isTextBased() = b`. -/
structure Env where
  ready : Bool
  token : Option String
  channel : Option Bool
  history : List Msg
  fetchFail : Nat → Option String
  sendResult : Except String Nat
  sendImageResult : Except String Nat

/-- Models `ensureDiscordReady` (index.ts lines 508-520): already-ready clients
pass; otherwise a missing token throws, and login succeeds in this model. -/
def ensureDiscordReady (env : Env) : Except String Unit :=
  if env.ready then .ok ()
  else
    match env.token with
    | none => .error "DISCORD_BOT_TOKEN environment variable is required"
    | some _ => .ok ()

/-- Models `channels.fetch` plus the `!channel || !channel.isTextBased()` check. -/
def fetchTextChannel (env : Env) : Except String Unit :=
  match env.channel with
  | some true => .ok ()
  | _ => .error "Channel not found or is not a text channel"

/-- Does a history message fall in the `before`/`after` snowflake window of a fetch call? -/
def inWindow (before after : Option Nat) (m : Msg) : Bool :=
  (match before with
   | some b => m.id < b
   | none => true) &&
  (match after with
   | some a => a < m.id
   | none => true)

/-- Models `textChannel.messages.fetch({limit: 100, before?, after?})`: up to 100
of the newest history messages inside the snowflake window. -/
def fetchBatch (history : List Msg) (before after : Option Nat) : List Msg :=
  (history.filter (inWindow before after)).take 100

/-! ## Per-message filters of the advanced scanner (index.ts lines 415-447) -/

/-- The argument record of `getMessagesAdvanced` (index.ts lines 365-375), with the
date strings already taken through `params.startDate ? new Date(params.startDate) : null`:
`none` is `null` (absent or empty string), `some none` an Invalid Date,
`some (some t)` a parsed date. -/
structure AdvancedParams where
  channelId : String
  limit : Option Nat
  before : Option Nat
  after : Option Nat
  startDate : Option JSDate
  endDate : Option JSDate
  keyword : Option String
  author : Option String
  hasAttachments : Option Bool
deriving Repr, DecidableEq

/-- `startDate && msg.createdAt < startDate` (index.ts line 417). An Invalid Date
is truthy but every relational comparison against it is false. -/
def startBreach (sd : Option JSDate) (m : Msg) : Bool :=
  match sd with
  | some (some t) => m.createdTimestamp < t
  | _ => false

/-- `endDate && msg.createdAt > endDate` (index.ts line 428). -/
def endSkip (ed : Option JSDate) (m : Msg) : Bool :=
  match ed with
  | some (some t) => m.createdTimestamp > t
  | _ => false

/-- `params.keyword && !msg.content.toLowerCase().includes(params.keyword.toLowerCase())`
(index.ts line 433). -/
def keywordSkip (kw : Option String) (m : Msg) : Bool :=
  match kw with
  | some k => !k.isEmpty && !strIncludes (lowerString m.content) (lowerString k)
  | none => false

/-- The author filter (index.ts lines 438-442): skip unless username or id matches exactly. -/
def authorSkip (a : Option String) (m : Msg) : Bool :=
  match a with
  | some s => !s.isEmpty && !(m.username = s || m.authorId = s)
  | none => false

/-- `params.hasAttachments && msg.attachments.size === 0` (index.ts line 445). -/
def attachSkip (ha : Option Bool) (m : Msg) : Bool :=
  match ha with
  | some true => m.attachments.isEmpty
  | _ => false

/-- A message passes every per-message check and gets pushed (no skip, no breach). -/
def passesFilters (p : AdvancedParams) (m : Msg) : Bool :=
  !startBreach p.startDate m && !endSkip p.endDate m && !keywordSkip p.keyword m
    && !authorSkip p.author m && !attachSkip p.hasAttachments m

/-- The same query with every unparseable (Invalid Date) bound omitted. This
follows the spec's words — an unparseable date bound is "treated as absent" —
and is the comparison object for that refinement claim. -/
def dropInvalidDates (p : AdvancedParams) : AdvancedParams :=
  { p with
    startDate := if p.startDate = some none then none else p.startDate,
    endDate := if p.endDate = some none then none else p.endDate }

/-! ## Batch sorting (index.ts line 413) -/

/-- Insert into a list kept in non-increasing `createdTimestamp` order. -/
def insertByTs (m : Msg) : List Msg → List Msg
  | [] => [m]
  | x :: xs =>
      if x.createdTimestamp > m.createdTimestamp then x :: insertByTs m xs
      else m :: x :: xs

/-- Models `messageArray.sort((a, b) => b.createdTimestamp - a.createdTimestamp)`:
sort the batch newest first. -/
def sortByTsDesc (l : List Msg) : List Msg := l.foldr insertByTs []

/-! ## The scan loop (index.ts lines 395-478) -/

/-- Result of processing one sorted batch: `early` is the immediate whole-scan
return on a start-date breach (index.ts lines 417-427), `cont` continues the loop. -/
inductive BatchRes where
  | early (acc : List OutMsg)
  | cont (acc : List OutMsg)
deriving Repr, DecidableEq

/-- The accumulator carried by either outcome. -/
def BatchRes.acc : BatchRes → List OutMsg
  | .early a => a
  | .cont a => a

/-- The `for (const msg of messageArray)` body (index.ts lines 415-467). -/
def processBatch (p : AdvancedParams) (targetLimit : Nat) :
    List Msg → List OutMsg → BatchRes
  | [], acc => .cont acc
  | m :: rest, acc =>
    if startBreach p.startDate m then .early acc
    else if endSkip p.endDate m then processBatch p targetLimit rest acc
    else if keywordSkip p.keyword m then processBatch p targetLimit rest acc
    else if authorSkip p.author m then processBatch p targetLimit rest acc
    else if attachSkip p.hasAttachments m then processBatch p targetLimit rest acc
    else
      let acc1 := acc ++ [projectMsg m]
      if targetLimit ≤ acc1.length then .cont acc1
      else processBatch p targetLimit rest acc1

/-- `const maxIterations = 10; // Prevent infinite loops` (index.ts line 388). -/
def maxIterations : Nat := 10

/-- The cursor update after a batch (index.ts lines 470-473): `lastMessageId`
becomes the id of the last element of the sorted batch when one exists. -/
def nextCursor (sorted : List Msg) (cursor : Option Nat) : Option Nat :=
  match sorted.getLast? with
  | some lm => some lm.id
  | none => cursor

/-- Outcome of the whole fetch loop. `short` records whether the scan returned
through the start-date short-circuit path; `trace` lists the raw batch returned
by each fetch call actually issued. -/
structure ScanDone where
  msgs : List OutMsg
  short : Bool
  totalFetched : Nat
  trace : List (List Msg)
deriving Repr, DecidableEq

/-- The `while (allMessages.length < targetLimit && iterations < maxIterations)`
loop (index.ts lines 395-478). `fuel` is the number of iterations still allowed. -/
def scanLoop (env : Env) (p : AdvancedParams) (targetLimit : Nat) :
    Nat → Option Nat → List OutMsg → Nat → List (List Msg) → Except String ScanDone
  | 0, _, acc, fetched, tr => .ok ⟨acc, false, fetched, tr⟩
  | fuel + 1, cursor, acc, fetched, tr =>
    if targetLimit ≤ acc.length then .ok ⟨acc, false, fetched, tr⟩
    else
      match env.fetchFail (tr.length + 1) with
      | some e => .error e
      | none =>
        let batch := fetchBatch env.history cursor p.after
        if batch.isEmpty then .ok ⟨acc, false, fetched, tr ++ [batch]⟩
        else
          let sorted := sortByTsDesc batch
          match processBatch p targetLimit sorted acc with
          | .early acc1 => .ok ⟨acc1, true, fetched, tr ++ [batch]⟩
          | .cont acc1 =>
            let cursor1 := nextCursor sorted cursor
            let fetched1 := fetched + batch.length
            if batch.length < 100 then .ok ⟨acc1, false, fetched1, tr ++ [batch]⟩
            else scanLoop env p targetLimit fuel cursor1 acc1 fetched1 (tr ++ [batch])

/-- The full scan of one `getMessagesAdvanced` invocation, from the initial state
(index.ts lines 384-395): cursor `params.before`, empty accumulator. -/
def scanCore (env : Env) (p : AdvancedParams) : Except String ScanDone :=
  scanLoop env p (jsOrNat p.limit 50) maxIterations p.before [] 0 []

/-! ## JSON rendering (`JSON.stringify(v, null, 2)`) -/

/-- JSON string escaping as performed by `JSON.stringify` (common escapes). -/
def jsonEscape (s : String) : String :=
  s.foldl
    (fun acc c =>
      if c = '\\' then acc ++ "\\\\"
      else if c = '"' then acc ++ "\\\""
      else if c = '\n' then acc ++ "\\n"
      else if c = '\r' then acc ++ "\\r"
      else if c = '\t' then acc ++ "\\t"
      else acc.push c)
    ""

/-- A JSON string literal. -/
def jstr (s : String) : String := "\"" ++ jsonEscape s ++ "\""

/-- Indentation of `n` spaces. -/
def pad (n : Nat) : String := String.mk (List.replicate n ' ')

/-- Opening delimiter of a JSON object. -/
def objOpen : String := "\x7b"

/-- Closing delimiter of a JSON object. -/
def objClose : String := "\x7d"

/-- Renders a JSON array with 2-space indentation, each element placed at
depth `d + 2`, the closing bracket back at depth `d`. -/
def renderList {α : Type} (d : Nat) (render1 : Nat → α → String) (l : List α) : String :=
  match l with
  | [] => "[]"
  | xs =>
      "[\n"
        ++ String.intercalate ",\n" (xs.map (fun x => pad (d + 2) ++ render1 (d + 2) x))
        ++ "\n" ++ pad d ++ "]"

/-- Renders one projected attachment of the advanced scan. -/
def renderOutAttachment (d : Nat) (a : OutAttachment) : String :=
  objOpen ++ "\n"
    ++ pad (d + 2) ++ jstr "name" ++ ": " ++ jstr a.name ++ ",\n"
    ++ pad (d + 2) ++ jstr "url" ++ ": " ++ jstr a.url ++ ",\n"
    ++ pad (d + 2) ++ jstr "size" ++ ": " ++ toString a.size ++ ",\n"
    ++ pad (d + 2) ++ jstr "contentType" ++ ": "
    ++ (match a.contentType with
        | some c => jstr c
        | none => "null") ++ "\n"
    ++ pad d ++ objClose

/-- Renders one projected message of the advanced scan. -/
def renderOutMsg (d : Nat) (m : OutMsg) : String :=
  objOpen ++ "\n"
    ++ pad (d + 2) ++ jstr "id" ++ ": " ++ jstr (toString m.id) ++ ",\n"
    ++ pad (d + 2) ++ jstr "author" ++ ": " ++ jstr m.author ++ ",\n"
    ++ pad (d + 2) ++ jstr "authorId" ++ ": " ++ jstr m.authorId ++ ",\n"
    ++ pad (d + 2) ++ jstr "content" ++ ": " ++ jstr m.content ++ ",\n"
    ++ pad (d + 2) ++ jstr "timestamp" ++ ": " ++ jstr m.timestamp ++ ",\n"
    ++ pad (d + 2) ++ jstr "attachments" ++ ": "
    ++ renderList (d + 2) renderOutAttachment m.attachments ++ ",\n"
    ++ pad (d + 2) ++ jstr "embeds" ++ ": " ++ toString m.embeds ++ ",\n"
    ++ pad (d + 2) ++ jstr "reactions" ++ ": " ++ toString m.reactions ++ "\n"
    ++ pad d ++ objClose

/-! ## Summary record (index.ts lines 481-496) -/

/-- The `filters` sub-record of the summary. -/
structure SummaryFilters where
  dateRange : String
  keyword : String
  author : String
  hasAttachments : Bool
deriving Repr, DecidableEq

/-- The `pagination` sub-record of the summary. -/
structure SummaryPagination where
  before : String
  after : String
  totalFetched : Nat
deriving Repr, DecidableEq

/-- The summary record built after the loop (index.ts lines 481-496). -/
structure Summary where
  total : Nat
  filters : SummaryFilters
  pagination : SummaryPagination
deriving Repr, DecidableEq

/-- `startDate || endDate ? ... : 'none'` (index.ts lines 484-486). An Invalid
Date is truthy, so its `toISOString()` is reached and throws. -/
def mkDateRange (sd ed : Option JSDate) : Except String String :=
  match sd, ed with
  | none, none => .ok "none"
  | _, _ => do
    let s ← match sd with
      | some d => dateToISO d
      | none => pure "any"
    let e ← match ed with
      | some d => dateToISO d
      | none => pure "any"
    pure (s ++ " to " ++ e)

/-- Builds the summary; fallible because `toISOString` throws on an Invalid Date. -/
def mkSummary (p : AdvancedParams) (total fetched : Nat) : Except String Summary := do
  let dr ← mkDateRange p.startDate p.endDate
  pure
    { total := total
      filters :=
        { dateRange := dr
          keyword := jsOrStr p.keyword "none"
          author := jsOrStr p.author "any"
          hasAttachments := p.hasAttachments.getD false }
      pagination :=
        { before :=
            match p.before with
            | some b => toString b
            | none => "none"
          after :=
            match p.after with
            | some a => toString a
            | none => "none"
          totalFetched := fetched } }

/-- Renders the summary exactly as `JSON.stringify(summary, null, 2)`. -/
def renderSummary (s : Summary) : String :=
  objOpen ++ "\n"
    ++ pad 2 ++ jstr "total" ++ ": " ++ toString s.total ++ ",\n"
    ++ pad 2 ++ jstr "filters" ++ ": " ++ objOpen ++ "\n"
    ++ pad 4 ++ jstr "dateRange" ++ ": " ++ jstr s.filters.dateRange ++ ",\n"
    ++ pad 4 ++ jstr "keyword" ++ ": " ++ jstr s.filters.keyword ++ ",\n"
    ++ pad 4 ++ jstr "author" ++ ": " ++ jstr s.filters.author ++ ",\n"
    ++ pad 4 ++ jstr "hasAttachments" ++ ": "
    ++ (if s.filters.hasAttachments then "true" else "false") ++ "\n"
    ++ pad 2 ++ objClose ++ ",\n"
    ++ pad 2 ++ jstr "pagination" ++ ": " ++ objOpen ++ "\n"
    ++ pad 4 ++ jstr "before" ++ ": " ++ jstr s.pagination.before ++ ",\n"
    ++ pad 4 ++ jstr "after" ++ ": " ++ jstr s.pagination.after ++ ",\n"
    ++ pad 4 ++ jstr "totalFetched" ++ ": " ++ toString s.pagination.totalFetched ++ "\n"
    ++ pad 2 ++ objClose ++ "\n"
    ++ objClose

/-! ## Tool responses -/

/-- One entry of a tool response's `content` array (always `type: "text"` here). -/
structure ContentItem where
  type : String
  text : String
deriving Repr, DecidableEq

/-- The value returned to the MCP layer by a tool handler. -/
structure ToolResponse where
  content : List ContentItem
deriving Repr, DecidableEq

/-- The text of the start-date short-circuit return (index.ts lines 419-427). -/
def shortCircuitText (msgs : List OutMsg) : String :=
  "Retrieved " ++ toString msgs.length ++ " messages matching criteria:\n\n"
    ++ renderList 0 renderOutMsg msgs

/-- The text of the normal advanced-search return (index.ts lines 498-505). -/
def advancedText (s : Summary) (msgs : List OutMsg) : String :=
  "Advanced search results:\n\nSummary: " ++ renderSummary s ++ "\n\nMessages:\n"
    ++ renderList 0 renderOutMsg msgs

/-- `getMessagesAdvanced` (index.ts lines 365-506): readiness and channel checks,
the scan loop, then either the short-circuit payload or summary plus messages. -/
def getMessagesAdvanced (env : Env) (p : AdvancedParams) : Except String ToolResponse :=
  match ensureDiscordReady env with
  | .error e => .error e
  | .ok _ =>
    match fetchTextChannel env with
    | .error e => .error e
    | .ok _ =>
      match scanCore env p with
      | .error e => .error e
      | .ok d =>
        if d.short then .ok ⟨[⟨"text", shortCircuitText d.msgs⟩]⟩
        else
          match mkSummary p d.msgs.length d.totalFetched with
          | .error e => .error e
          | .ok s => .ok ⟨[⟨"text", advancedText s d.msgs⟩]⟩

/-! ## The other four tools (index.ts lines 249-363), thin pass-through glue -/

/-- `sendMessage` (index.ts lines 249-267). -/
def sendMessage (env : Env) (channelId message : Option String) :
    Except String ToolResponse :=
  match ensureDiscordReady env with
  | .error e => .error e
  | .ok _ =>
    match fetchTextChannel env with
    | .error e => .error e
    | .ok _ =>
      match env.sendResult with
      | .error e => .error e
      | .ok mid =>
          .ok ⟨[⟨"text", "Message sent successfully to channel " ++ jsStr channelId
            ++ ". Message ID: " ++ toString mid⟩]⟩

/-- `sendImage` (index.ts lines 269-295); a send failure is re-thrown wrapped, and
interpolating a JS `Error` prints as `Error: <message>`. -/
def sendImage (env : Env) (channelId imagePath message : Option String) :
    Except String ToolResponse :=
  match ensureDiscordReady env with
  | .error e => .error e
  | .ok _ =>
    match fetchTextChannel env with
    | .error e => .error e
    | .ok _ =>
      match env.sendImageResult with
      | .error e => .error ("Failed to send image: Error: " ++ e)
      | .ok mid =>
          .ok ⟨[⟨"text", "Image sent successfully to channel " ++ jsStr channelId
            ++ ". Message ID: " ++ toString mid⟩]⟩

/-- The projection used by the plain `getMessages` tool (index.ts lines 306-316). -/
structure SimpleOutAttachment where
  name : String
  url : String
  size : Nat
deriving Repr, DecidableEq

/-- The record of one message in the plain `getMessages` listing. -/
structure SimpleOutMsg where
  id : Nat
  author : String
  content : String
  timestamp : String
  attachments : List SimpleOutAttachment
deriving Repr, DecidableEq

/-- Renders one attachment of the plain listing. -/
def renderSimpleAttachment (d : Nat) (a : SimpleOutAttachment) : String :=
  objOpen ++ "\n"
    ++ pad (d + 2) ++ jstr "name" ++ ": " ++ jstr a.name ++ ",\n"
    ++ pad (d + 2) ++ jstr "url" ++ ": " ++ jstr a.url ++ ",\n"
    ++ pad (d + 2) ++ jstr "size" ++ ": " ++ toString a.size ++ "\n"
    ++ pad d ++ objClose

/-- Renders one message of the plain listing. -/
def renderSimpleOutMsg (d : Nat) (m : SimpleOutMsg) : String :=
  objOpen ++ "\n"
    ++ pad (d + 2) ++ jstr "id" ++ ": " ++ jstr (toString m.id) ++ ",\n"
    ++ pad (d + 2) ++ jstr "author" ++ ": " ++ jstr m.author ++ ",\n"
    ++ pad (d + 2) ++ jstr "content" ++ ": " ++ jstr m.content ++ ",\n"
    ++ pad (d + 2) ++ jstr "timestamp" ++ ": " ++ jstr m.timestamp ++ ",\n"
    ++ pad (d + 2) ++ jstr "attachments" ++ ": "
    ++ renderList (d + 2) renderSimpleAttachment m.attachments ++ "\n"
    ++ pad d ++ objClose

/-- `getMessages` (index.ts lines 297-326): one fetch of up to `limit` messages. -/
def getMessages (env : Env) (channelId : Option String) (limit : Nat) :
    Except String ToolResponse :=
  match ensureDiscordReady env with
  | .error e => .error e
  | .ok _ =>
    match fetchTextChannel env with
    | .error e => .error e
    | .ok _ =>
      let data := (env.history.take limit).map (fun m =>
        SimpleOutMsg.mk m.id m.username m.content (isoString m.createdTimestamp)
          (m.attachments.map (fun a => ⟨a.name, a.url, a.size⟩)))
      .ok ⟨[⟨"text", "Retrieved " ++ toString data.length ++ " messages from channel "
        ++ jsStr channelId ++ ":\n\n" ++ renderList 0 renderSimpleOutMsg data⟩]⟩

/-- One entry of the `getImages` listing (index.ts lines 342-350). -/
structure ImageOut where
  messageId : Nat
  author : String
  timestamp : String
  filename : String
  url : String
  size : Nat
  contentType : String
deriving Repr, DecidableEq

/-- Renders one image entry. -/
def renderImageOut (d : Nat) (a : ImageOut) : String :=
  objOpen ++ "\n"
    ++ pad (d + 2) ++ jstr "messageId" ++ ": " ++ jstr (toString a.messageId) ++ ",\n"
    ++ pad (d + 2) ++ jstr "author" ++ ": " ++ jstr a.author ++ ",\n"
    ++ pad (d + 2) ++ jstr "timestamp" ++ ": " ++ jstr a.timestamp ++ ",\n"
    ++ pad (d + 2) ++ jstr "filename" ++ ": " ++ jstr a.filename ++ ",\n"
    ++ pad (d + 2) ++ jstr "url" ++ ": " ++ jstr a.url ++ ",\n"
    ++ pad (d + 2) ++ jstr "size" ++ ": " ++ toString a.size ++ ",\n"
    ++ pad (d + 2) ++ jstr "contentType" ++ ": " ++ jstr a.contentType ++ "\n"
    ++ pad d ++ objClose

/-- The image entries collected by `getImages` (index.ts lines 339-353):
attachments whose contentType starts with `image/`. -/
def imageEntries (msgs : List Msg) : List ImageOut :=
  msgs.foldl
    (fun acc m =>
      acc ++ m.attachments.filterMap (fun a =>
        match a.contentType with
        | some c =>
            if c.startsWith "image/" then
              some ⟨m.id, m.username, isoString m.createdTimestamp, a.name, a.url, a.size, c⟩
            else none
        | none => none))
    []

/-- `getImages` (index.ts lines 328-363). -/
def getImages (env : Env) (channelId : Option String) (limit : Nat) :
    Except String ToolResponse :=
  match ensureDiscordReady env with
  | .error e => .error e
  | .ok _ =>
    match fetchTextChannel env with
    | .error e => .error e
    | .ok _ =>
      let data := imageEntries (env.history.take limit)
      .ok ⟨[⟨"text", "Retrieved " ++ toString data.length ++ " images from channel "
        ++ jsStr channelId ++ ":\n\n" ++ renderList 0 renderImageOut data⟩]⟩

/-! ## Tool dispatch (index.ts lines 189-246) -/

/-- The raw argument record of a tool call, with snake_case keys. The date fields
are already taken through JS `Date` construction as in `AdvancedParams`. -/
structure JsArgs where
  channel_id : Option String
  message : Option String
  image_path : Option String
  limit : Option Nat
  before : Option Nat
  after : Option Nat
  start_date : Option JSDate
  end_date : Option JSDate
  keyword : Option String
  author : Option String
  has_attachments : Option Bool
deriving Repr, DecidableEq

/-- The body of the CallTool request handler before the catch (index.ts lines 191-235):
argument presence check, tool switch, per-tool argument coercions. -/
def runCallTool (env : Env) (name : String) (args : Option JsArgs) :
    Except String ToolResponse :=
  match args with
  | none => .error "Arguments are required"
  | some a =>
    if name = "discord_send_message" then sendMessage env a.channel_id a.message
    else if name = "discord_send_image" then sendImage env a.channel_id a.image_path a.message
    else if name = "discord_get_messages" then getMessages env a.channel_id (jsOrNat a.limit 10)
    else if name = "discord_get_images" then getImages env a.channel_id (jsOrNat a.limit 50)
    else if name = "discord_get_messages_advanced" then
      getMessagesAdvanced env
        { channelId := jsStr a.channel_id
          limit := some (jsOrNat a.limit 50)
          before := a.before
          after := a.after
          startDate := a.start_date
          endDate := a.end_date
          keyword := a.keyword
          author := a.author
          hasAttachments := a.has_attachments }
    else .error ("Unknown tool: " ++ name)

/-- The CallTool handler with its catch-all (index.ts lines 189-246): any thrown
error becomes a single `Error: <message>` text payload. -/
def handleCallTool (env : Env) (name : String) (args : Option JsArgs) : ToolResponse :=
  match runCallTool env name args with
  | .ok r => r
  | .error e => ⟨[⟨"text", "Error: " ++ e⟩]⟩

/-! ## Sortedness notions -/

/-- A message list is in non-increasing creation-timestamp order. -/
def TsSorted (l : List Msg) : Prop :=
  l.Pairwise (fun a b => b.createdTimestamp ≤ a.createdTimestamp)

/-- A channel history as the collaborator promises it: newest first, snowflake
identifiers strictly decreasing and monotonically related to send time. -/
def HistSorted (hist : List Msg) : Prop :=
  hist.Pairwise (fun a b => b.id < a.id ∧ b.createdTimestamp ≤ a.createdTimestamp)

/-! ## Concrete fixtures used by witnesses and counterexamples -/

/-- A plain collaborator environment: ready client, found text channel, the
given history, no injected remote failures. -/
def mkEnv (h : List Msg) : Env :=
  ⟨true, none, some true, h, fun _ => none, .ok 1, .ok 1⟩

/-- A query with only the required channel id. -/
def pBase : AdvancedParams :=
  ⟨"c", none, none, none, none, none, none, none, none⟩

def msgA : Msg := ⟨9, "alice", "7", "hello world", 1000, [], 0, 0⟩

def msgB : Msg := ⟨5, "bob", "1", "hi", 900, [], 0, 0⟩

def msgOld : Msg := ⟨3, "bob", "1", "old", 3, [], 0, 0⟩

/-- 101 matching messages, newest first (ids and timestamps 101 down to 1). -/
def histC2 : List Msg :=
  (List.range 101).map
    (fun k => ⟨101 - k, "alice", "7", "hi", ((101 - k : Nat) : Int), [], 0, 0⟩)

def envC2 : Env := mkEnv histC2

def pC2 : AdvancedParams := { pBase with limit := some 101 }

def envC1 : Env := mkEnv [msgB]

def pC1 : AdvancedParams := { pBase with author := some "" }

def envC56 : Env := mkEnv [msgOld]

def pC5 : AdvancedParams :=
  { pBase with startDate := some (some 10), keyword := some "zzz" }

def msgC6a : Msg := ⟨6, "bob", "1", "hi", 7, [], 0, 0⟩

def msgC6b : Msg := ⟨5, "bob", "1", "hi", 3, [], 0, 0⟩

def envC6 : Env := mkEnv [msgC6a, msgC6b]

def pC6 : AdvancedParams :=
  { pBase with startDate := some (some 10), endDate := some (some 5) }

def envC7 : Env := mkEnv []

def pC7 : AdvancedParams := { pBase with startDate := some none }

def envC8 : Env := mkEnv [msgOld]

def pC8 : AdvancedParams := { pBase with startDate := some (some 10) }

/-- The empty-result short-circuit payload text. -/
def shortEmptyText : String := "Retrieved 0 messages matching criteria:\n\n[]"

/-- A query with a parsed start bound and an unparseable (Invalid Date) end
bound: the reachable short-circuit case for the invalid-date claim. -/
def pW7 : AdvancedParams :=
  { pBase with startDate := some (some 10), endDate := some none }

/-- The response carrying the empty short-circuit payload. -/
def rShortEmpty : ToolResponse := ⟨[⟨"text", shortEmptyText⟩]⟩

/-- A query with only an end bound. -/
def pEndOnly : AdvancedParams := { pBase with endDate := some (some 5000) }

def envW1 : Env := mkEnv [msgA]

def pW1 : AdvancedParams := { pBase with keyword := some "WORLD" }

def dW1 : ScanDone := ⟨[projectMsg msgA], false, 1, [[msgA]]⟩

def dW2 : ScanDone := ⟨[projectMsg msgA], false, 1, [[msgA]]⟩

def dShortOld : ScanDone := ⟨[], true, 0, [[msgOld]]⟩

def envW4 : Env := mkEnv [msgA, msgB]

def dW4 : ScanDone := ⟨[projectMsg msgA, projectMsg msgB], false, 2, [[msgA, msgB]]⟩

def argsW10 : JsArgs :=
  ⟨some "c", none, none, some 0, none, none, none, none, none, none, none⟩

/-! ## Lemmas about the defensive batch sort -/

theorem insertByTs_perm (m : Msg) (l : List Msg) :
    List.Perm (insertByTs m l) (m :: l) := by
  induction l with
  | nil => simp [insertByTs]
  | cons x xs ih =>
    simp only [insertByTs]
    split
    · exact (ih.cons x).trans (List.Perm.swap m x xs)
    · exact List.Perm.refl _

theorem sortByTsDesc_perm (l : List Msg) : List.Perm (sortByTsDesc l) l := by
  induction l with
  | nil => simp [sortByTsDesc]
  | cons x xs ih =>
    have : sortByTsDesc (x :: xs) = insertByTs x (sortByTsDesc xs) := rfl
    rw [this]
    exact (insertByTs_perm x (sortByTsDesc xs)).trans (ih.cons x)

theorem mem_sortByTsDesc {m : Msg} {l : List Msg} : m ∈ sortByTsDesc l ↔ m ∈ l :=
  (sortByTsDesc_perm l).mem_iff

theorem insertByTs_sorted (m : Msg) (l : List Msg) (h : TsSorted l) :
    TsSorted (insertByTs m l) := by
  induction l with
  | nil => simp [insertByTs, TsSorted]
  | cons x xs ih =>
    rw [TsSorted, List.pairwise_cons] at h
    obtain ⟨hx, hxs⟩ := h
    simp only [insertByTs]
    split
    · next hgt =>
        rw [TsSorted, List.pairwise_cons]
        refine ⟨fun y hy => ?_, ih hxs⟩
        rcases List.mem_cons.mp ((insertByTs_perm m xs).mem_iff.mp hy) with rfl | hmem
        · exact le_of_lt hgt
        · exact hx y hmem
    · next hle =>
        push_neg at hle
        rw [TsSorted, List.pairwise_cons]
        refine ⟨fun y hy => ?_, List.pairwise_cons.mpr ⟨hx, hxs⟩⟩
        rcases List.mem_cons.mp hy with rfl | hmem
        · exact hle
        · exact le_trans (hx y hmem) hle

theorem sortByTsDesc_sorted (l : List Msg) : TsSorted (sortByTsDesc l) := by
  induction l with
  | nil => simp [sortByTsDesc, TsSorted]
  | cons x xs ih => exact insertByTs_sorted x (sortByTsDesc xs) ih

theorem getLast?_mem : ∀ (l : List Msg) (a : Msg), l.getLast? = some a → a ∈ l := by
  intro l
  induction l with
  | nil => intro a h; cases h
  | cons x xs ih =>
    intro a h
    cases xs with
    | nil => simp only [List.getLast?_singleton, Option.some.injEq] at h; simp [h]
    | cons y ys =>
      rw [List.getLast?_cons_cons] at h
      exact List.mem_cons_of_mem x (ih a h)

theorem tsSorted_getLast_le :
    ∀ (l : List Msg), TsSorted l → ∀ (L : Msg), l.getLast? = some L →
      ∀ x ∈ l, L.createdTimestamp ≤ x.createdTimestamp := by
  intro l
  induction l with
  | nil => intro _ L h; cases h
  | cons a as ih =>
    intro hs L hL x hx
    rw [TsSorted, List.pairwise_cons] at hs
    obtain ⟨ha, has⟩ := hs
    cases as with
    | nil =>
      simp only [List.getLast?_singleton, Option.some.injEq] at hL
      rcases List.mem_singleton.mp hx with rfl
      simp [hL]
    | cons b bs =>
      rw [List.getLast?_cons_cons] at hL
      rcases List.mem_cons.mp hx with rfl | hx'
      · exact ha L (getLast?_mem _ L hL)
      · exact ih has L hL x hx'

/-! ## Lemmas about the batch fetch -/

theorem fetchBatch_sublist (h : List Msg) (b a : Option Nat) :
    (fetchBatch h b a).Sublist h :=
  (List.take_sublist _ _).trans (List.filter_sublist _)

theorem mem_fetchBatch_window {m : Msg} {h : List Msg} {b a : Option Nat}
    (hm : m ∈ fetchBatch h b a) : inWindow b a m = true :=
  List.of_mem_filter ((List.take_sublist _ _).subset hm)

theorem mem_fetchBatch_id_lt {m : Msg} {h : List Msg} {c : Nat} {a : Option Nat}
    (hm : m ∈ fetchBatch h (some c) a) : m.id < c := by
  have := mem_fetchBatch_window hm
  simp only [inWindow, Bool.and_eq_true, decide_eq_true_eq] at this
  exact this.1

/-! ## Lemmas about per-batch processing -/

theorem passesFilters_spec {p : AdvancedParams} {m : Msg}
    (h : passesFilters p m = true) :
    startBreach p.startDate m = false ∧ endSkip p.endDate m = false ∧
      keywordSkip p.keyword m = false ∧ authorSkip p.author m = false ∧
      attachSkip p.hasAttachments m = false := by
  simp only [passesFilters, Bool.and_eq_true, Bool.not_eq_true'] at h
  tauto

theorem passesFilters_of_parts {p : AdvancedParams} {m : Msg}
    (h1 : startBreach p.startDate m = false) (h2 : endSkip p.endDate m = false)
    (h3 : keywordSkip p.keyword m = false) (h4 : authorSkip p.author m = false)
    (h5 : attachSkip p.hasAttachments m = false) : passesFilters p m = true := by
  simp [passesFilters, h1, h2, h3, h4, h5]

theorem processBatch_acc (p : AdvancedParams) (tl : Nat) :
    ∀ (batch : List Msg) (acc : List OutMsg),
      ∃ sel : List Msg, sel.Sublist batch ∧ (∀ m ∈ sel, passesFilters p m = true) ∧
        (processBatch p tl batch acc).acc = acc ++ sel.map projectMsg := by
  intro batch
  induction batch with
  | nil =>
    intro acc
    exact ⟨[], List.nil_sublist _, by simp, by simp [processBatch, BatchRes.acc]⟩
  | cons m rest ih =>
    intro acc
    by_cases h1 : startBreach p.startDate m = true
    · exact ⟨[], List.nil_sublist _, by simp, by simp [processBatch, h1, BatchRes.acc]⟩
    · rw [Bool.not_eq_true] at h1
      by_cases h2 : endSkip p.endDate m = true
      · obtain ⟨sel, hs, hf, he⟩ := ih acc
        exact ⟨sel, hs.cons m, hf, by simpa [processBatch, h1, h2] using he⟩
      · rw [Bool.not_eq_true] at h2
        by_cases h3 : keywordSkip p.keyword m = true
        · obtain ⟨sel, hs, hf, he⟩ := ih acc
          exact ⟨sel, hs.cons m, hf, by simpa [processBatch, h1, h2, h3] using he⟩
        · rw [Bool.not_eq_true] at h3
          by_cases h4 : authorSkip p.author m = true
          · obtain ⟨sel, hs, hf, he⟩ := ih acc
            exact ⟨sel, hs.cons m, hf, by simpa [processBatch, h1, h2, h3, h4] using he⟩
          · rw [Bool.not_eq_true] at h4
            by_cases h5 : attachSkip p.hasAttachments m = true
            · obtain ⟨sel, hs, hf, he⟩ := ih acc
              exact ⟨sel, hs.cons m, hf,
                by simpa [processBatch, h1, h2, h3, h4, h5] using he⟩
            · rw [Bool.not_eq_true] at h5
              have hpass := passesFilters_of_parts h1 h2 h3 h4 h5
              by_cases h6 : tl ≤ acc.length + 1
              · refine ⟨[m], List.Sublist.cons₂ m (List.nil_sublist rest), ?_, ?_⟩
                · intro x hx; rcases List.mem_singleton.mp hx with rfl; exact hpass
                · simp [processBatch, h1, h2, h3, h4, h5, h6, BatchRes.acc]
              · obtain ⟨sel, hs, hf, he⟩ := ih (acc ++ [projectMsg m])
                refine ⟨m :: sel, List.Sublist.cons₂ m hs, ?_, ?_⟩
                · intro x hx
                  rcases List.mem_cons.mp hx with rfl | hx'
                  · exact hpass
                  · exact hf x hx'
                · rw [show (processBatch p tl (m :: rest) acc)
                        = processBatch p tl rest (acc ++ [projectMsg m]) by
                      simp [processBatch, h1, h2, h3, h4, h5, h6]]
                  simpa using he

theorem processBatch_len (p : AdvancedParams) (tl : Nat) :
    ∀ (batch : List Msg) (acc : List OutMsg), acc.length < tl →
      (processBatch p tl batch acc).acc.length ≤ tl := by
  intro batch
  induction batch with
  | nil => intro acc h; simp [processBatch, BatchRes.acc]; omega
  | cons m rest ih =>
    intro acc h
    by_cases h1 : startBreach p.startDate m = true
    · simp [processBatch, h1, BatchRes.acc]; omega
    · rw [Bool.not_eq_true] at h1
      by_cases h2 : endSkip p.endDate m = true
      · simpa [processBatch, h1, h2] using ih acc h
      · rw [Bool.not_eq_true] at h2
        by_cases h3 : keywordSkip p.keyword m = true
        · simpa [processBatch, h1, h2, h3] using ih acc h
        · rw [Bool.not_eq_true] at h3
          by_cases h4 : authorSkip p.author m = true
          · simpa [processBatch, h1, h2, h3, h4] using ih acc h
          · rw [Bool.not_eq_true] at h4
            by_cases h5 : attachSkip p.hasAttachments m = true
            · simpa [processBatch, h1, h2, h3, h4, h5] using ih acc h
            · rw [Bool.not_eq_true] at h5
              by_cases h6 : tl ≤ acc.length + 1
              · simp [processBatch, h1, h2, h3, h4, h5, h6, BatchRes.acc]
                omega
              · have h7 : (acc ++ [projectMsg m]).length < tl := by
                  simp only [List.length_append, List.length_singleton]
                  omega
                rw [show (processBatch p tl (m :: rest) acc)
                      = processBatch p tl rest (acc ++ [projectMsg m]) by
                    simp [processBatch, h1, h2, h3, h4, h5, h6]]
                exact ih _ h7

theorem processBatch_no_breach (p : AdvancedParams) (tl : Nat) :
    ∀ (batch : List Msg) (acc acc1 : List OutMsg),
      processBatch p tl batch acc = .cont acc1 → acc1.length < tl →
      ∀ m ∈ batch, startBreach p.startDate m = false := by
  intro batch
  induction batch with
  | nil => intro acc acc1 _ _ m hm; cases hm
  | cons m rest ih =>
    intro acc acc1 hres hlen x hx
    by_cases h1 : startBreach p.startDate m = true
    · simp [processBatch, h1] at hres
    · rw [Bool.not_eq_true] at h1
      rcases List.mem_cons.mp hx with rfl | hx'
      · exact h1
      · by_cases h2 : endSkip p.endDate m = true
        · exact ih acc acc1 (by simpa [processBatch, h1, h2] using hres) hlen x hx'
        · rw [Bool.not_eq_true] at h2
          by_cases h3 : keywordSkip p.keyword m = true
          · exact ih acc acc1 (by simpa [processBatch, h1, h2, h3] using hres) hlen x hx'
          · rw [Bool.not_eq_true] at h3
            by_cases h4 : authorSkip p.author m = true
            · exact ih acc acc1 (by simpa [processBatch, h1, h2, h3, h4] using hres) hlen x hx'
            · rw [Bool.not_eq_true] at h4
              by_cases h5 : attachSkip p.hasAttachments m = true
              · exact ih acc acc1
                  (by simpa [processBatch, h1, h2, h3, h4, h5] using hres) hlen x hx'
              · rw [Bool.not_eq_true] at h5
                by_cases h6 : tl ≤ acc.length + 1
                · exfalso
                  have hres' : acc ++ [projectMsg m] = acc1 := by
                    simpa [processBatch, h1, h2, h3, h4, h5, h6, BatchRes.cont.injEq]
                      using hres
                  rw [← hres'] at hlen
                  simp only [List.length_append, List.length_singleton] at hlen
                  omega
                · exact ih _ acc1
                    (by simpa [processBatch, h1, h2, h3, h4, h5, h6] using hres) hlen x hx'

/-! ## Small helpers for the loop proofs -/

theorem mem_sorted_batch_history {hist : List Msg} {c a : Option Nat} {m : Msg}
    (hm : m ∈ sortByTsDesc (fetchBatch hist c a)) : m ∈ hist :=
  (fetchBatch_sublist hist c a).subset (mem_sortByTsDesc.mp hm)

theorem getLast?_isSome_of_ne_nil :
    ∀ (l : List Msg), l ≠ [] → ∃ a, l.getLast? = some a := by
  intro l
  induction l with
  | nil => intro h; exact absurd rfl h
  | cons x xs ih =>
    intro _
    cases xs with
    | nil => exact ⟨x, rfl⟩
    | cons y ys =>
      obtain ⟨a, ha⟩ := ih (by simp)
      exact ⟨a, by rw [List.getLast?_cons_cons]; exact ha⟩

theorem sortByTsDesc_ne_nil {l : List Msg} (h : l ≠ []) : sortByTsDesc l ≠ [] := by
  intro hc
  apply h
  have hlen := (sortByTsDesc_perm l).length_eq
  rw [hc] at hlen
  simpa using List.length_eq_zero.mp hlen.symm

theorem dropLast_append_single (l : List (List Msg)) (x : List Msg) :
    (l ++ [x]).dropLast = l := by
  simp

theorem histSorted_rel :
    ∀ (hist : List Msg), HistSorted hist → ∀ a ∈ hist, ∀ b ∈ hist, b.id < a.id →
      b.createdTimestamp ≤ a.createdTimestamp := by
  intro hist
  induction hist with
  | nil => intro _ a ha; cases ha
  | cons x rest ih =>
    intro hh a ha b hb hid
    rw [HistSorted, List.pairwise_cons] at hh
    obtain ⟨hx, hrest⟩ := hh
    rcases List.mem_cons.mp ha with rfl | ha'
    · rcases List.mem_cons.mp hb with rfl | hb'
      · omega
      · exact (hx b hb').2
    · rcases List.mem_cons.mp hb with rfl | hb'
      · exact absurd (hx a ha').1 (by omega)
      · exact ih hrest a ha' b hb' hid

/-! ## Loop-level lemmas -/

/-- When the target is already reached, the loop exits without fetching. -/
theorem scanLoop_stop (env : Env) (p : AdvancedParams) (tl fuel : Nat)
    (cursor : Option Nat) (acc : List OutMsg) (fetched : Nat) (tr : List (List Msg))
    (h : tl ≤ acc.length) :
    scanLoop env p tl fuel cursor acc fetched tr = .ok ⟨acc, false, fetched, tr⟩ := by
  cases fuel with
  | zero => simp [scanLoop]
  | succ n => simp [scanLoop, h]

/-- Each loop iteration issues exactly one fetch, so the number of fetch calls
is bounded by the remaining fuel. -/
theorem scanLoop_trace (env : Env) (p : AdvancedParams) (tl : Nat) :
    ∀ (fuel : Nat) (cursor : Option Nat) (acc : List OutMsg) (fetched : Nat)
      (tr : List (List Msg)) (d : ScanDone),
      scanLoop env p tl fuel cursor acc fetched tr = .ok d →
      d.trace.length ≤ tr.length + fuel := by
  intro fuel
  induction fuel with
  | zero =>
    intro cursor acc fetched tr d h
    simp only [scanLoop, Except.ok.injEq] at h
    subst h
    simp
  | succ n ih =>
    intro cursor acc fetched tr d h
    simp only [scanLoop] at h
    split at h
    · simp only [Except.ok.injEq] at h
      subst h
      simp
    · split at h
      · exact Except.noConfusion h
      · split at h
        · simp only [Except.ok.injEq] at h
          subst h
          simp
        · split at h
          · next acc1 heq =>
              simp only [Except.ok.injEq] at h
              subst h
              simp
          · next acc1 heq =>
              split at h
              · simp only [Except.ok.injEq] at h
                subst h
                simp
              · have := ih _ _ _ _ _ h
                simp only [List.length_append, List.length_singleton] at this
                omega

/-- Every message of the final accumulator is the projection of a history message
that passed every per-message filter. -/
theorem scanLoop_msgs (env : Env) (p : AdvancedParams) (tl : Nat) :
    ∀ (fuel : Nat) (cursor : Option Nat) (acc : List OutMsg) (fetched : Nat)
      (tr : List (List Msg)) (d : ScanDone),
      scanLoop env p tl fuel cursor acc fetched tr = .ok d →
      (∀ out ∈ acc, ∃ m, m ∈ env.history ∧ passesFilters p m = true ∧ out = projectMsg m) →
      ∀ out ∈ d.msgs, ∃ m, m ∈ env.history ∧ passesFilters p m = true ∧ out = projectMsg m := by
  intro fuel
  induction fuel with
  | zero =>
    intro cursor acc fetched tr d h hacc
    simp only [scanLoop, Except.ok.injEq] at h
    subst h
    exact hacc
  | succ n ih =>
    intro cursor acc fetched tr d h hacc
    simp only [scanLoop] at h
    split at h
    · simp only [Except.ok.injEq] at h; subst h; exact hacc
    · split at h
      · exact Except.noConfusion h
      · split at h
        · simp only [Except.ok.injEq] at h; subst h; exact hacc
        · split at h
          · next acc1 heq =>
              obtain ⟨sel, hsub, hfil, he⟩ := processBatch_acc p tl
                (sortByTsDesc (fetchBatch env.history cursor p.after)) acc
              rw [heq] at he
              simp only [BatchRes.acc] at he
              simp only [Except.ok.injEq] at h
              subst h
              intro out hout
              replace hout : out ∈ acc1 := hout
              rw [he] at hout
              rcases List.mem_append.mp hout with hl | hr
              · exact hacc out hl
              · obtain ⟨mm, hmm, rfl⟩ := List.mem_map.mp hr
                exact ⟨mm, mem_sorted_batch_history (hsub.subset hmm), hfil mm hmm, rfl⟩
          · next acc1 heq =>
              obtain ⟨sel, hsub, hfil, he⟩ := processBatch_acc p tl
                (sortByTsDesc (fetchBatch env.history cursor p.after)) acc
              rw [heq] at he
              simp only [BatchRes.acc] at he
              have hacc1 : ∀ out ∈ acc1,
                  ∃ m, m ∈ env.history ∧ passesFilters p m = true ∧ out = projectMsg m := by
                intro out hout
                rw [he] at hout
                rcases List.mem_append.mp hout with hl | hr
                · exact hacc out hl
                · obtain ⟨mm, hmm, rfl⟩ := List.mem_map.mp hr
                  exact ⟨mm, mem_sorted_batch_history (hsub.subset hmm), hfil mm hmm, rfl⟩
              split at h
              · simp only [Except.ok.injEq] at h
                subst h
                intro out hout
                exact hacc1 out hout
              · exact ih _ _ _ _ _ h hacc1

/-- The accumulator never grows past the target limit. -/
theorem scanLoop_len (env : Env) (p : AdvancedParams) (tl : Nat) :
    ∀ (fuel : Nat) (cursor : Option Nat) (acc : List OutMsg) (fetched : Nat)
      (tr : List (List Msg)) (d : ScanDone),
      scanLoop env p tl fuel cursor acc fetched tr = .ok d →
      acc.length ≤ tl → d.msgs.length ≤ tl := by
  intro fuel
  induction fuel with
  | zero =>
    intro cursor acc fetched tr d h hlen
    simp only [scanLoop, Except.ok.injEq] at h
    subst h
    exact hlen
  | succ n ih =>
    intro cursor acc fetched tr d h hlen
    simp only [scanLoop] at h
    split at h
    · simp only [Except.ok.injEq] at h; subst h; exact hlen
    · rename_i hstop
      have hlt : acc.length < tl := by omega
      split at h
      · exact Except.noConfusion h
      · split at h
        · simp only [Except.ok.injEq] at h; subst h; exact hlen
        · split at h
          · next acc1 heq =>
              have hle := processBatch_len p tl
                (sortByTsDesc (fetchBatch env.history cursor p.after)) acc hlt
              rw [heq] at hle
              simp only [BatchRes.acc] at hle
              simp only [Except.ok.injEq] at h
              subst h
              exact hle
          · next acc1 heq =>
              have hle := processBatch_len p tl
                (sortByTsDesc (fetchBatch env.history cursor p.after)) acc hlt
              rw [heq] at hle
              simp only [BatchRes.acc] at hle
              split at h
              · simp only [Except.ok.injEq] at h; subst h; exact hle
              · exact ih _ _ _ _ _ h hle

/-- A message that predates the start bound can only ever appear in the final
fetched batch: the short-circuit return happens inside the batch in which the
first such message is seen, so no further fetch call is issued. -/
theorem scanLoop_breach (env : Env) (p : AdvancedParams) (tl : Nat) :
    ∀ (fuel : Nat) (cursor : Option Nat) (acc : List OutMsg) (fetched : Nat)
      (tr : List (List Msg)) (d : ScanDone),
      scanLoop env p tl fuel cursor acc fetched tr = .ok d →
      (∀ b ∈ tr, ∀ m ∈ b, startBreach p.startDate m = false) →
      ∀ b ∈ d.trace.dropLast, ∀ m ∈ b, startBreach p.startDate m = false := by
  intro fuel
  induction fuel with
  | zero =>
    intro cursor acc fetched tr d h htr
    simp only [scanLoop, Except.ok.injEq] at h
    subst h
    intro b hb
    exact htr b ((List.dropLast_sublist _).subset hb)
  | succ n ih =>
    intro cursor acc fetched tr d h htr
    simp only [scanLoop] at h
    split at h
    · simp only [Except.ok.injEq] at h
      subst h
      intro b hb
      exact htr b ((List.dropLast_sublist _).subset hb)
    · split at h
      · exact Except.noConfusion h
      · split at h
        · simp only [Except.ok.injEq] at h
          subst h
          intro b hb
          replace hb : b ∈ (tr ++ [fetchBatch env.history cursor p.after]).dropLast := hb
          rw [dropLast_append_single] at hb
          exact htr b hb
        · split at h
          · next acc1 heq =>
              simp only [Except.ok.injEq] at h
              subst h
              intro b hb
              replace hb : b ∈ (tr ++ [fetchBatch env.history cursor p.after]).dropLast := hb
              rw [dropLast_append_single] at hb
              exact htr b hb
          · next acc1 heq =>
              split at h
              · simp only [Except.ok.injEq] at h
                subst h
                intro b hb
                replace hb :
                    b ∈ (tr ++ [fetchBatch env.history cursor p.after]).dropLast := hb
                rw [dropLast_append_single] at hb
                exact htr b hb
              · by_cases htl : tl ≤ acc1.length
                · rw [scanLoop_stop _ _ _ _ _ _ _ _ htl] at h
                  simp only [Except.ok.injEq] at h
                  subst h
                  intro b hb
                  replace hb :
                      b ∈ (tr ++ [fetchBatch env.history cursor p.after]).dropLast := hb
                  rw [dropLast_append_single] at hb
                  exact htr b hb
                · push_neg at htl
                  have hcl := processBatch_no_breach p tl _ acc acc1 heq htl
                  apply ih _ _ _ _ _ h
                  intro b hb m hm
                  rcases List.mem_append.mp hb with hbl | hbr
                  · exact htr b hbl m hm
                  · rcases List.mem_singleton.mp hbr with rfl
                    exact hcl m (mem_sortByTsDesc.mpr hm)

/-! ## The cross-batch ordering invariant -/

/-- Appending a selection from the current (sorted) batch preserves membership in
the history and the non-increasing-timestamp ordering of the accumulator. -/
theorem batchStep_sorted {env : Env} {p : AdvancedParams} {cursor : Option Nat}
    {ms sel : List Msg}
    (hmem : ∀ m ∈ ms, m ∈ env.history)
    (hsort : TsSorted ms)
    (hcur : ∀ c, cursor = some c → ∀ x ∈ ms, ∀ m ∈ env.history, m.id < c →
      m.createdTimestamp ≤ x.createdTimestamp)
    (hnone : cursor = none → ms = [])
    (hsub : sel.Sublist (sortByTsDesc (fetchBatch env.history cursor p.after))) :
    TsSorted (ms ++ sel) ∧ ∀ m ∈ ms ++ sel, m ∈ env.history := by
  constructor
  · rw [TsSorted, List.pairwise_append]
    refine ⟨hsort, List.Pairwise.sublist hsub (sortByTsDesc_sorted _), ?_⟩
    intro a ha b hb
    cases hc : cursor with
    | none => rw [hnone hc] at ha; cases ha
    | some c =>
      have hbb : b ∈ sortByTsDesc (fetchBatch env.history (some c) p.after) := by
        rw [← hc]
        exact hsub.subset hb
      exact hcur c hc a ha b (mem_sorted_batch_history hbb)
        (mem_fetchBatch_id_lt (mem_sortByTsDesc.mp hbb))
  · intro m hm
    rcases List.mem_append.mp hm with h1 | h1
    · exact hmem m h1
    · exact mem_sorted_batch_history (hsub.subset h1)

/-- After advancing the cursor to the oldest message `L` of the sorted batch,
everything below the new cursor in a well-ordered history is at least as old as
everything accumulated so far. -/
theorem batchStep_cursor {env : Env} {p : AdvancedParams} {cursor : Option Nat}
    {ms sel : List Msg} {L : Msg}
    (hh : HistSorted env.history)
    (hcur : ∀ c, cursor = some c → ∀ x ∈ ms, ∀ m ∈ env.history, m.id < c →
      m.createdTimestamp ≤ x.createdTimestamp)
    (hnone : cursor = none → ms = [])
    (hsub : sel.Sublist (sortByTsDesc (fetchBatch env.history cursor p.after)))
    (hL : (sortByTsDesc (fetchBatch env.history cursor p.after)).getLast? = some L) :
    ∀ x ∈ ms ++ sel, ∀ m ∈ env.history, m.id < L.id →
      m.createdTimestamp ≤ x.createdTimestamp := by
  intro x hx m hm hid
  have hLmem : L ∈ sortByTsDesc (fetchBatch env.history cursor p.after) :=
    getLast?_mem _ _ hL
  have hLhist : L ∈ env.history := mem_sorted_batch_history hLmem
  rcases List.mem_append.mp hx with hxm | hxs
  · cases hc : cursor with
    | none => rw [hnone hc] at hxm; cases hxm
    | some c =>
      have hLlt : L.id < c := by
        have hmem2 : L ∈ sortByTsDesc (fetchBatch env.history (some c) p.after) := by
          rw [← hc]
          exact hLmem
        exact mem_fetchBatch_id_lt (mem_sortByTsDesc.mp hmem2)
      exact hcur c hc x hxm m hm (lt_trans hid hLlt)
  · have hmL : m.createdTimestamp ≤ L.createdTimestamp :=
      histSorted_rel env.history hh L hLhist m hm hid
    have hLx : L.createdTimestamp ≤ x.createdTimestamp :=
      tsSorted_getLast_le _ (sortByTsDesc_sorted _) L hL x (hsub.subset hxs)
    exact le_trans hmL hLx

/-- If the history respects the snowflake/time monotonicity promised by the data
model, the final accumulator is the projection of a timestamp-non-increasing
message list. -/
theorem scanLoop_sorted (env : Env) (p : AdvancedParams) (tl : Nat)
    (hh : HistSorted env.history) :
    ∀ (fuel : Nat) (cursor : Option Nat) (ms : List Msg) (fetched : Nat)
      (tr : List (List Msg)) (d : ScanDone),
      scanLoop env p tl fuel cursor (ms.map projectMsg) fetched tr = .ok d →
      (∀ m ∈ ms, m ∈ env.history) →
      TsSorted ms →
      (∀ c, cursor = some c → ∀ x ∈ ms, ∀ m ∈ env.history, m.id < c →
        m.createdTimestamp ≤ x.createdTimestamp) →
      (cursor = none → ms = []) →
      ∃ ms2, d.msgs = ms2.map projectMsg ∧ TsSorted ms2 := by
  intro fuel
  induction fuel with
  | zero =>
    intro cursor ms fetched tr d h hmem hsort hcur hnone
    simp only [scanLoop, Except.ok.injEq] at h
    subst h
    exact ⟨ms, rfl, hsort⟩
  | succ n ih =>
    intro cursor ms fetched tr d h hmem hsort hcur hnone
    simp only [scanLoop] at h
    split at h
    · simp only [Except.ok.injEq] at h; subst h; exact ⟨ms, rfl, hsort⟩
    · split at h
      · exact Except.noConfusion h
      · split at h
        · simp only [Except.ok.injEq] at h; subst h; exact ⟨ms, rfl, hsort⟩
        · rename_i hbne
          split at h
          · next acc1 heq =>
              obtain ⟨sel, hsub, hfil, he⟩ := processBatch_acc p tl
                (sortByTsDesc (fetchBatch env.history cursor p.after)) (ms.map projectMsg)
              rw [heq] at he
              simp only [BatchRes.acc] at he
              have he2 : acc1 = (ms ++ sel).map projectMsg := by
                rw [List.map_append]
                exact he
              obtain ⟨hsortnew, _⟩ := batchStep_sorted hmem hsort hcur hnone hsub
              simp only [Except.ok.injEq] at h
              subst h
              exact ⟨ms ++ sel, he2, hsortnew⟩
          · next acc1 heq =>
              obtain ⟨sel, hsub, hfil, he⟩ := processBatch_acc p tl
                (sortByTsDesc (fetchBatch env.history cursor p.after)) (ms.map projectMsg)
              rw [heq] at he
              simp only [BatchRes.acc] at he
              have he2 : acc1 = (ms ++ sel).map projectMsg := by
                rw [List.map_append]
                exact he
              obtain ⟨hsortnew, hmemnew⟩ := batchStep_sorted hmem hsort hcur hnone hsub
              split at h
              · simp only [Except.ok.injEq] at h
                subst h
                exact ⟨ms ++ sel, he2, hsortnew⟩
              · have hne : fetchBatch env.history cursor p.after ≠ [] := by
                  intro hcnil
                  rw [hcnil] at hbne
                  simp at hbne
                obtain ⟨L, hL⟩ := getLast?_isSome_of_ne_nil _ (sortByTsDesc_ne_nil hne)
                have hcursor :
                    nextCursor (sortByTsDesc (fetchBatch env.history cursor p.after)) cursor
                      = some L.id := by
                  unfold nextCursor
                  rw [hL]
                rw [hcursor, he2] at h
                refine ih _ _ _ _ _ h hmemnew hsortnew ?_ ?_
                · intro c hc
                  injection hc with hc
                  subst hc
                  exact batchStep_cursor hh hcur hnone hsub hL
                · intro hno
                  exact Option.noConfusion hno

/-! ## Congruence of the scan in the filter parameters -/

/-- Batch processing only looks at the parameters through the five per-message
checks. -/
theorem processBatch_congr (p q : AdvancedParams) (tl : Nat)
    (hb : ∀ m, startBreach p.startDate m = startBreach q.startDate m)
    (hend : ∀ m, endSkip p.endDate m = endSkip q.endDate m)
    (hk : p.keyword = q.keyword)
    (ha : p.author = q.author) (hat : p.hasAttachments = q.hasAttachments) :
    ∀ (batch : List Msg) (acc : List OutMsg),
      processBatch p tl batch acc = processBatch q tl batch acc := by
  intro batch
  induction batch with
  | nil => intro acc; rfl
  | cons m rest ih =>
    intro acc
    simp only [processBatch, hb m, hend m, hk, ha, hat]
    split
    · rfl
    · split
      · exact ih acc
      · split
        · exact ih acc
        · split
          · exact ih acc
          · split
            · exact ih acc
            · split
              · rfl
              · exact ih _

/-- The whole loop only looks at the parameters through the per-message checks
and the `after` cursor. -/
theorem scanLoop_congr (env : Env) (p q : AdvancedParams) (tl : Nat)
    (hb : ∀ m, startBreach p.startDate m = startBreach q.startDate m)
    (hend : ∀ m, endSkip p.endDate m = endSkip q.endDate m)
    (hk : p.keyword = q.keyword)
    (ha : p.author = q.author) (hat : p.hasAttachments = q.hasAttachments)
    (haf : p.after = q.after) :
    ∀ (fuel : Nat) (cursor : Option Nat) (acc : List OutMsg) (fetched : Nat)
      (tr : List (List Msg)),
      scanLoop env p tl fuel cursor acc fetched tr
        = scanLoop env q tl fuel cursor acc fetched tr := by
  intro fuel
  induction fuel with
  | zero => intro cursor acc fetched tr; rfl
  | succ n ih =>
    intro cursor acc fetched tr
    simp only [scanLoop, haf, processBatch_congr p q tl hb hend hk ha hat, ih]

/-- Skipping the too-new messages of a batch is the same as deleting them,
provided any parsed start bound does not exceed the end bound. -/
theorem processBatch_filter_endSkip (p : AdvancedParams) (tl : Nat) (e : Int)
    (he : p.endDate = some (some e))
    (hse : ∀ s, p.startDate = some (some s) → s ≤ e) :
    ∀ (batch : List Msg) (acc : List OutMsg),
      processBatch p tl batch acc
        = processBatch p tl (batch.filter (fun m => !endSkip p.endDate m)) acc := by
  intro batch
  induction batch with
  | nil => intro acc; rfl
  | cons m rest ih =>
    intro acc
    by_cases hskip : endSkip p.endDate m = true
    · have hgt : e < m.createdTimestamp := by
        rw [he] at hskip
        simpa [endSkip] using hskip
      have hbr : startBreach p.startDate m = false := by
        cases hsd : p.startDate with
        | none => rfl
        | some sd =>
          cases sd with
          | none => rfl
          | some s =>
            have hs := hse s hsd
            simp only [startBreach, decide_eq_false_iff_not, not_lt]
            omega
      rw [show processBatch p tl (m :: rest) acc = processBatch p tl rest acc by
        simp [processBatch, hbr, hskip]]
      rw [show (m :: rest).filter (fun m => !endSkip p.endDate m)
            = rest.filter (fun m => !endSkip p.endDate m) by simp [hskip]]
      exact ih acc
    · rw [Bool.not_eq_true] at hskip
      rw [show (m :: rest).filter (fun m => !endSkip p.endDate m)
            = m :: rest.filter (fun m => !endSkip p.endDate m) by simp [hskip]]
      simp only [processBatch, hskip]
      split
      · rfl
      · split
        · exact ih acc
        · split
          · exact ih acc
          · split
            · exact ih acc
            · split
              · exact ih acc
              · split
                · rfl
                · exact ih _

/-! ## Invalid (unparseable) date bounds behave as absent bounds -/

theorem dropInvalidDates_startBreach (p : AdvancedParams) :
    ∀ m, startBreach p.startDate m = startBreach (dropInvalidDates p).startDate m := by
  intro m
  by_cases hs : p.startDate = some none
  · have h1 : (dropInvalidDates p).startDate = none := by simp [dropInvalidDates, hs]
    rw [h1, hs]
    rfl
  · have h1 : (dropInvalidDates p).startDate = p.startDate := by
      simp [dropInvalidDates, hs]
    rw [h1]

theorem dropInvalidDates_endSkip (p : AdvancedParams) :
    ∀ m, endSkip p.endDate m = endSkip (dropInvalidDates p).endDate m := by
  intro m
  by_cases hs : p.endDate = some none
  · have h1 : (dropInvalidDates p).endDate = none := by simp [dropInvalidDates, hs]
    rw [h1, hs]
    rfl
  · have h1 : (dropInvalidDates p).endDate = p.endDate := by
      simp [dropInvalidDates, hs]
    rw [h1]

/-- With any Invalid Date bound present, building the `dateRange` string throws:
the truthy Invalid Date reaches its `toISOString()`. -/
theorem mkDateRange_invalid {sd ed : Option JSDate}
    (hinv : sd = some none ∨ ed = some none) :
    mkDateRange sd ed = .error "Invalid time value" := by
  rcases hinv with h | h
  · subst h
    cases ed with
    | none => rfl
    | some e => rfl
  · subst h
    cases sd with
    | none => rfl
    | some s =>
      cases s with
      | none => rfl
      | some t => rfl

/-- When the start check never fires, batch processing never takes the
early-return branch. -/
theorem processBatch_not_early (p : AdvancedParams) (tl : Nat)
    (hbf : ∀ m, startBreach p.startDate m = false) :
    ∀ (batch : List Msg) (acc : List OutMsg), ∃ acc1,
      processBatch p tl batch acc = .cont acc1 := by
  intro batch
  induction batch with
  | nil => intro acc; exact ⟨acc, rfl⟩
  | cons m rest ih =>
    intro acc
    have h1 : startBreach p.startDate m = false := hbf m
    by_cases h2 : endSkip p.endDate m = true
    · simpa [processBatch, h1, h2] using ih acc
    · rw [Bool.not_eq_true] at h2
      by_cases h3 : keywordSkip p.keyword m = true
      · simpa [processBatch, h1, h2, h3] using ih acc
      · rw [Bool.not_eq_true] at h3
        by_cases h4 : authorSkip p.author m = true
        · simpa [processBatch, h1, h2, h3, h4] using ih acc
        · rw [Bool.not_eq_true] at h4
          by_cases h5 : attachSkip p.hasAttachments m = true
          · simpa [processBatch, h1, h2, h3, h4, h5] using ih acc
          · rw [Bool.not_eq_true] at h5
            by_cases h6 : tl ≤ acc.length + 1
            · exact ⟨acc ++ [projectMsg m],
                by simp [processBatch, h1, h2, h3, h4, h5, h6]⟩
            · simpa [processBatch, h1, h2, h3, h4, h5, h6]
                using ih (acc ++ [projectMsg m])

/-- When the start check never fires (in particular when the start bound is an
Invalid Date), the scan never returns through the short-circuit path. -/
theorem scanLoop_short_false (env : Env) (p : AdvancedParams) (tl : Nat)
    (hbf : ∀ m, startBreach p.startDate m = false) :
    ∀ (fuel : Nat) (cursor : Option Nat) (acc : List OutMsg) (fetched : Nat)
      (tr : List (List Msg)) (d : ScanDone),
      scanLoop env p tl fuel cursor acc fetched tr = .ok d → d.short = false := by
  intro fuel
  induction fuel with
  | zero =>
    intro cursor acc fetched tr d h
    simp only [scanLoop, Except.ok.injEq] at h
    subst h
    rfl
  | succ n ih =>
    intro cursor acc fetched tr d h
    simp only [scanLoop] at h
    split at h
    · simp only [Except.ok.injEq] at h; subst h; rfl
    · split at h
      · exact Except.noConfusion h
      · split at h
        · simp only [Except.ok.injEq] at h; subst h; rfl
        · split at h
          · next acc1 heq =>
              obtain ⟨acc2, hc⟩ := processBatch_not_early p tl hbf
                (sortByTsDesc (fetchBatch env.history cursor p.after)) acc
              rw [heq] at hc
              exact BatchRes.noConfusion hc
          · next acc1 heq =>
              split at h
              · simp only [Except.ok.injEq] at h; subst h; rfl
              · exact ih _ _ _ _ _ h

/-! ## Claim C1: every returned record satisfies every supplied filter -/

/-- C1 (counterexample): the claim fails as stated. With the author filter
supplied as the empty string, a message whose display name and author id both
differ from the supplied author string is still returned: JS truthiness makes
an empty author behave as no filter at all. -/
theorem C1_counterexample :
    pC1.author = some "" ∧
    (scanCore envC1 pC1).map ScanDone.msgs = .ok [projectMsg msgB] ∧
    msgB.username ≠ "" ∧ msgB.authorId ≠ "" := by
  refine ⟨rfl, by rfl, by decide, by decide⟩

/-- C1 (amended): every message record in a successful scan is the projection of
a channel-history message satisfying every effective filter — case-insensitive
keyword containment when a non-empty keyword is supplied, exact author
name-or-id equality when a non-empty author is supplied, attachment presence
when requested, and the inclusive window of the parsed date bounds. An
empty-string author or keyword is treated as absent. -/
theorem C1_theorem (env : Env) (p : AdvancedParams) (d : ScanDone)
    (h : scanCore env p = .ok d) :
    ∀ out ∈ d.msgs, ∃ m, m ∈ env.history ∧ out = projectMsg m ∧
      (∀ k, p.keyword = some k → k.isEmpty = false →
        strIncludes (lowerString m.content) (lowerString k) = true) ∧
      (∀ a, p.author = some a → a.isEmpty = false →
        (m.username = a ∨ m.authorId = a)) ∧
      (p.hasAttachments = some true → m.attachments ≠ []) ∧
      (∀ s, p.startDate = some (some s) → s ≤ m.createdTimestamp) ∧
      (∀ e, p.endDate = some (some e) → m.createdTimestamp ≤ e) := by
  have h2 : scanLoop env p (jsOrNat p.limit 50) maxIterations p.before [] 0 [] = .ok d := h
  intro out hout
  obtain ⟨m, hmem, hpass, heq⟩ :=
    scanLoop_msgs env p (jsOrNat p.limit 50) maxIterations p.before [] 0 [] d h2
      (by intro o ho; cases ho) out hout
  obtain ⟨hbr, hend, hkw, hau, hatt⟩ := passesFilters_spec hpass
  refine ⟨m, hmem, heq, ?_, ?_, ?_, ?_, ?_⟩
  · intro k hk hke
    rw [hk] at hkw
    simpa [keywordSkip, hke] using hkw
  · intro a ha hae
    rw [ha] at hau
    have hau2 := by simpa [authorSkip, hae] using hau
    exact or_iff_not_imp_left.mpr hau2
  · intro hha
    rw [hha] at hatt
    simpa [attachSkip] using hatt
  · intro s hs
    rw [hs] at hbr
    simp only [startBreach, decide_eq_false_iff_not, not_lt] at hbr
    exact hbr
  · intro e he
    rw [he] at hend
    simp only [endSkip, decide_eq_false_iff_not, not_lt] at hend
    exact hend

/-- C1 (witness). -/
theorem C1_witness :
    ∃ m, m ∈ envW1.history ∧ projectMsg msgA = projectMsg m ∧
      (∀ k, pW1.keyword = some k → k.isEmpty = false →
        strIncludes (lowerString m.content) (lowerString k) = true) ∧
      (∀ a, pW1.author = some a → a.isEmpty = false →
        (m.username = a ∨ m.authorId = a)) ∧
      (pW1.hasAttachments = some true → m.attachments ≠ []) ∧
      (∀ s, pW1.startDate = some (some s) → s ≤ m.createdTimestamp) ∧
      (∀ e, pW1.endDate = some (some e) → m.createdTimestamp ≤ e) :=
  C1_theorem envW1 pW1 dW1 (by rfl) (projectMsg msgA) (by decide)

/-! ## Claim C2: result length bound and the (absent) hard cap -/

/-- C2 (counterexample): the claim fails as stated. There is no 100 hard cap: a
requested limit of 101 against 101 matching messages returns 101 records. -/
theorem C2_counterexample :
    pC2.limit = some 101 ∧
    (scanCore envC2 pC2).map (fun d => d.msgs.length) = .ok 101 := by
  exact ⟨rfl, by rfl⟩

/-- C2 (amended): the result length never exceeds the effective target
`limit || 50`, and the target defaults to 50 when the limit is omitted — but
nothing caps a supplied limit at 100. -/
theorem C2_theorem (env : Env) (p : AdvancedParams) (d : ScanDone)
    (h : scanCore env p = .ok d) :
    d.msgs.length ≤ jsOrNat p.limit 50 ∧ (p.limit = none → d.msgs.length ≤ 50) := by
  have h2 : scanLoop env p (jsOrNat p.limit 50) maxIterations p.before [] 0 [] = .ok d := h
  have hb := scanLoop_len env p (jsOrNat p.limit 50) maxIterations p.before [] 0 [] d h2
    (by simp)
  exact ⟨hb, fun hn => by simpa [jsOrNat, hn] using hb⟩

/-- C2 (witness). -/
theorem C2_witness :
    dW2.msgs.length ≤ jsOrNat pBase.limit 50 ∧
      (pBase.limit = none → dW2.msgs.length ≤ 50) :=
  C2_theorem envW1 pBase dW2 (by rfl)

/-! ## Claim C3: the start-date short-circuit -/

/-- C3: with a parsed start bound `t`, every returned record projects a history
message no older than `t` (so nothing older than an encountered too-old message
appears in the result), and a message older than `t` can only occur in the
batch of the very last fetch call — the scan issues no further batch fetches
once one is encountered. -/
theorem C3_theorem (env : Env) (p : AdvancedParams) (t : Int) (d : ScanDone)
    (h : scanCore env p = .ok d) (hs : p.startDate = some (some t)) :
    (∀ out ∈ d.msgs, ∃ m, m ∈ env.history ∧ out = projectMsg m ∧
      t ≤ m.createdTimestamp) ∧
    (∀ b ∈ d.trace.dropLast, ∀ m ∈ b, t ≤ m.createdTimestamp) := by
  have h2 : scanLoop env p (jsOrNat p.limit 50) maxIterations p.before [] 0 [] = .ok d := h
  constructor
  · intro out hout
    obtain ⟨m, hmem, hpass, heq⟩ :=
      scanLoop_msgs env p (jsOrNat p.limit 50) maxIterations p.before [] 0 [] d h2
        (by intro o ho; cases ho) out hout
    obtain ⟨hbr, _, _, _, _⟩ := passesFilters_spec hpass
    rw [hs] at hbr
    simp only [startBreach, decide_eq_false_iff_not, not_lt] at hbr
    exact ⟨m, hmem, heq, hbr⟩
  · intro b hb m hm
    have hcl := scanLoop_breach env p (jsOrNat p.limit 50) maxIterations p.before [] 0 [] d
      h2 (by intro b hb; cases hb) b hb m hm
    rw [hs] at hcl
    simp only [startBreach, decide_eq_false_iff_not, not_lt] at hcl
    exact hcl

/-- C3 (witness). -/
theorem C3_witness :
    (∀ out ∈ dShortOld.msgs, ∃ m, m ∈ envC56.history ∧ out = projectMsg m ∧
      (10 : Int) ≤ m.createdTimestamp) ∧
    (∀ b ∈ dShortOld.trace.dropLast, ∀ m ∈ b, (10 : Int) ≤ m.createdTimestamp) :=
  C3_theorem envC56 { pBase with startDate := some (some 10) } 10 dShortOld (by rfl) rfl

/-! ## Claim C4: the result sequence is non-increasing in timestamp -/

/-- C4: when the channel history honors the data model's promise that snowflake
ids are monotonically related to send time (newest first), the returned record
sequence is the projection of a message list that is non-increasing in creation
timestamp - across batches as well as inside each batch. -/
theorem C4_theorem (env : Env) (p : AdvancedParams) (d : ScanDone)
    (hh : HistSorted env.history) (h : scanCore env p = .ok d) :
    ∃ ms : List Msg, d.msgs = ms.map projectMsg ∧
      ms.Pairwise (fun a b => b.createdTimestamp ≤ a.createdTimestamp) := by
  have h2 : scanLoop env p (jsOrNat p.limit 50) maxIterations p.before
      (([] : List Msg).map projectMsg) 0 [] = .ok d := h
  exact scanLoop_sorted env p (jsOrNat p.limit 50) hh maxIterations p.before [] 0 [] d h2
    (by intro m hm; cases hm) List.Pairwise.nil
    (by intro c hc x hx; cases hx) (fun _ => rfl)

/-- C4 (witness). -/
theorem C4_witness :
    ∃ ms : List Msg, dW4.msgs = ms.map projectMsg ∧
      ms.Pairwise (fun a b => b.createdTimestamp ≤ a.createdTimestamp) :=
  C4_theorem envW4 pBase dW4 (by unfold HistSorted; decide) (by rfl)

/-! ## Claim C5: iteration budget and the empty result -/

/-- C5 (counterexample): the claim fails as stated. A query whose filters match
no message can return through the start-date short-circuit: the result is empty
and the fetch-call budget was respected, but the payload carries no JSON summary
record at all (it contains no object delimiter). -/
theorem C5_counterexample :
    (∀ m ∈ envC56.history, passesFilters pC5 m = false) ∧
    getMessagesAdvanced envC56 pC5 = .ok rShortEmpty ∧
    strIncludes shortEmptyText objOpen = false := by
  refine ⟨by decide, by rfl, by rfl⟩

/-- C5 (amended): the loop issues at most `maxIterations = 10` fetch calls —
a constant within the spec's 8-12 range — and never runs unboundedly; a query
whose filters match no history message yields an empty result. The populated
summary accompanies it only off the start-date short-circuit path. -/
theorem C5_theorem (env : Env) (p : AdvancedParams) (d : ScanDone)
    (h : scanCore env p = .ok d) :
    d.trace.length ≤ maxIterations ∧ (8 ≤ maxIterations ∧ maxIterations ≤ 12) ∧
    ((∀ m ∈ env.history, passesFilters p m = false) → d.msgs = []) := by
  have h2 : scanLoop env p (jsOrNat p.limit 50) maxIterations p.before [] 0 [] = .ok d := h
  refine ⟨?_, by decide, ?_⟩
  · have ht := scanLoop_trace env p (jsOrNat p.limit 50) maxIterations p.before [] 0 [] d h2
    simpa using ht
  · intro hno
    cases hd : d.msgs with
    | nil => rfl
    | cons out rest =>
      exfalso
      have hout : out ∈ d.msgs := by rw [hd]; exact List.mem_cons_self _ _
      obtain ⟨m, hmem, hpass, _⟩ :=
        scanLoop_msgs env p (jsOrNat p.limit 50) maxIterations p.before [] 0 [] d h2
          (by intro o ho; cases ho) out hout
      rw [hno m hmem] at hpass
      exact Bool.noConfusion hpass

/-- C5 (witness). -/
theorem C5_witness :
    dShortOld.trace.length ≤ maxIterations ∧
      (8 ≤ maxIterations ∧ maxIterations ≤ 12) ∧
      ((∀ m ∈ envC56.history, passesFilters pC5 m = false) → dShortOld.msgs = []) :=
  C5_theorem envC56 pC5 dShortOld (by rfl)

/-! ## Claim C6: end-date skip, not stop -/

/-- C6 (counterexample): the claim fails as stated. With `start_date = 10` and
`end_date = 5`, the first message (timestamp 7) is newer than the end bound, yet
it halts the entire scan through the start-date short-circuit: the scan sets the
short flag after a single fetch and the older second message is never examined. -/
theorem C6_counterexample :
    pC6.endDate = some (some 5) ∧ endSkip pC6.endDate msgC6a = true ∧
    scanCore envC6 pC6 = .ok ⟨[], true, 0, [[msgC6a, msgC6b]]⟩ := by
  refine ⟨rfl, by rfl, by rfl⟩

/-- C6 (amended): when an end bound `e` is supplied and any parsed start bound
is at most `e`, a message newer than `e` is exactly skipped: processing a batch
equals processing the batch with the too-new messages deleted, and every
returned record's source timestamp is at most `e`. -/
theorem C6_theorem (p : AdvancedParams) (tl : Nat) (e : Int)
    (he : p.endDate = some (some e))
    (hse : ∀ s, p.startDate = some (some s) → s ≤ e) :
    (∀ (batch : List Msg) (acc : List OutMsg),
      processBatch p tl batch acc
        = processBatch p tl (batch.filter (fun m => !endSkip p.endDate m)) acc) ∧
    (∀ (env : Env) (d : ScanDone), scanCore env p = .ok d →
      ∀ out ∈ d.msgs, ∃ m, m ∈ env.history ∧ out = projectMsg m ∧
        m.createdTimestamp ≤ e) := by
  refine ⟨processBatch_filter_endSkip p tl e he hse, ?_⟩
  intro env d h out hout
  have h2 : scanLoop env p (jsOrNat p.limit 50) maxIterations p.before [] 0 [] = .ok d := h
  obtain ⟨m, hmem, hpass, heq⟩ :=
    scanLoop_msgs env p (jsOrNat p.limit 50) maxIterations p.before [] 0 [] d h2
      (by intro o ho; cases ho) out hout
  obtain ⟨_, hend, _, _, _⟩ := passesFilters_spec hpass
  rw [he] at hend
  simp only [endSkip, decide_eq_false_iff_not, not_lt] at hend
  exact ⟨m, hmem, heq, hend⟩

/-- C6 (witness). -/
theorem C6_witness :
    (∀ (batch : List Msg) (acc : List OutMsg),
      processBatch pEndOnly 50 batch acc
        = processBatch pEndOnly 50
            (batch.filter (fun m => !endSkip pEndOnly.endDate m)) acc) ∧
    (∀ (env : Env) (d : ScanDone), scanCore env pEndOnly = .ok d →
      ∀ out ∈ d.msgs, ∃ m, m ∈ env.history ∧ out = projectMsg m ∧
        m.createdTimestamp ≤ 5000) :=
  C6_theorem pEndOnly 50 5000 rfl (fun _ hs => Option.noConfusion hs)

/-! ## Claim C7: unparseable date bounds -/

/-- C7 (counterexample): the claim fails as stated. An invalid (unparseable)
start date leaves the scan itself untouched, but the summary serialization
throws on the Invalid Date, so the invocation errors instead of returning the
success response of the same query with the bound omitted. -/
theorem C7_counterexample :
    getMessagesAdvanced envC7 pC7 = .error "Invalid time value" ∧
    (getMessagesAdvanced envC7 { pC7 with startDate := none }).toOption.isSome = true := by
  refine ⟨by rfl, by rfl⟩

/-- C7 (amended): an unparseable start or end bound (an Invalid Date) is treated
as absent by the scan loop — the scan result is identical to the same query with
every invalid bound omitted, and so is a short-circuit success response (which
is reachable exactly when a parsed start bound fires while the end bound is the
invalid one) — but whenever the scan completes off the short-circuit path, the
summary serialization of the Invalid Date throws and the invocation returns the
`Invalid time value` error instead of a success. An invalid start bound never
triggers the short-circuit, so such a query always takes the error path. -/
theorem C7_theorem (env : Env) (p : AdvancedParams)
    (hinv : p.startDate = some none ∨ p.endDate = some none) :
    scanCore env p = scanCore env (dropInvalidDates p) ∧
    (∀ d, scanCore env p = .ok d → d.short = true →
      getMessagesAdvanced env p = getMessagesAdvanced env (dropInvalidDates p)) ∧
    (∀ d, scanCore env p = .ok d → d.short = false →
      ensureDiscordReady env = .ok () → fetchTextChannel env = .ok () →
      getMessagesAdvanced env p = .error "Invalid time value") ∧
    (p.startDate = some none → ∀ d, scanCore env p = .ok d → d.short = false) := by
  have hcore : scanCore env p = scanCore env (dropInvalidDates p) :=
    scanLoop_congr env p (dropInvalidDates p) (jsOrNat p.limit 50)
      (dropInvalidDates_startBreach p) (dropInvalidDates_endSkip p) rfl rfl rfl rfl
      maxIterations p.before [] 0 []
  refine ⟨hcore, ?_, ?_, ?_⟩
  · intro d hd hshort
    have hd2 : scanCore env (dropInvalidDates p) = .ok d := by
      rw [← hcore]
      exact hd
    cases hens : ensureDiscordReady env with
    | error e => simp [getMessagesAdvanced, hens]
    | ok u =>
      cases hch : fetchTextChannel env with
      | error e => simp [getMessagesAdvanced, hens, hch]
      | ok v => simp [getMessagesAdvanced, hens, hch, hd, hd2, hshort]
  · intro d hd hshort hens hch
    have hsum : mkSummary p d.msgs.length d.totalFetched
        = .error "Invalid time value" := by
      unfold mkSummary
      rw [mkDateRange_invalid hinv]
      rfl
    simp [getMessagesAdvanced, hens, hch, hd, hshort, hsum]
  · intro hsd d hd
    have hd2 : scanLoop env p (jsOrNat p.limit 50) maxIterations p.before [] 0 []
        = .ok d := hd
    exact scanLoop_short_false env p (jsOrNat p.limit 50)
      (by intro m; rw [hsd]; rfl) maxIterations p.before [] 0 [] d hd2

/-- C7 (witness): instantiated at the reachable short-circuit configuration — a
parsed start bound, an unparseable end bound, and a history whose only message
predates the start bound. -/
theorem C7_witness :
    scanCore envC56 pW7 = scanCore envC56 (dropInvalidDates pW7) ∧
    (∀ d, scanCore envC56 pW7 = .ok d → d.short = true →
      getMessagesAdvanced envC56 pW7
        = getMessagesAdvanced envC56 (dropInvalidDates pW7)) ∧
    (∀ d, scanCore envC56 pW7 = .ok d → d.short = false →
      ensureDiscordReady envC56 = .ok () → fetchTextChannel envC56 = .ok () →
      getMessagesAdvanced envC56 pW7 = .error "Invalid time value") ∧
    (pW7.startDate = some none → ∀ d, scanCore envC56 pW7 = .ok d → d.short = false) :=
  C7_theorem envC56 pW7 (Or.inr rfl)

/-! ## Claim C8: the success payload shape -/

/-- C8 (counterexample): the claim fails as stated. On the start-date
short-circuit path the success payload is a count line plus the JSON message
array only: it contains no object delimiter at all, hence no JSON-encoded
summary record. -/
theorem C8_counterexample :
    getMessagesAdvanced envC8 pC8 = .ok rShortEmpty ∧
    strIncludes shortEmptyText objOpen = false := by
  refine ⟨by rfl, by rfl⟩

/-- C8 (amended): every success response is a single text payload; off the
short-circuit path it is the literal header followed by the JSON summary and
the JSON message array in that order, while the short-circuit path yields the
count line and the JSON message array with no summary record. -/
theorem C8_theorem (env : Env) (p : AdvancedParams) (r : ToolResponse)
    (h : getMessagesAdvanced env p = .ok r) :
    ∃ d, scanCore env p = .ok d ∧
      ((d.short = true ∧ r = ⟨[⟨"text", shortCircuitText d.msgs⟩]⟩) ∨
       (d.short = false ∧ ∃ s, mkSummary p d.msgs.length d.totalFetched = .ok s ∧
         r = ⟨[⟨"text", advancedText s d.msgs⟩]⟩)) := by
  unfold getMessagesAdvanced at h
  split at h
  · exact Except.noConfusion h
  · split at h
    · exact Except.noConfusion h
    · split at h
      · exact Except.noConfusion h
      · next d heqd =>
          split at h
          · next hshort =>
              simp only [Except.ok.injEq] at h
              exact ⟨d, heqd, Or.inl ⟨hshort, h.symm⟩⟩
          · next hshort =>
              split at h
              · exact Except.noConfusion h
              · next s heqs =>
                  simp only [Except.ok.injEq] at h
                  exact ⟨d, heqd,
                    Or.inr ⟨by simpa using hshort, s, heqs, h.symm⟩⟩

/-- C8 (witness). -/
theorem C8_witness :
    ∃ d, scanCore envC8 pC8 = .ok d ∧
      ((d.short = true ∧ rShortEmpty = ⟨[⟨"text", shortCircuitText d.msgs⟩]⟩) ∨
       (d.short = false ∧ ∃ s, mkSummary pC8 d.msgs.length d.totalFetched = .ok s ∧
         rShortEmpty = ⟨[⟨"text", advancedText s d.msgs⟩]⟩)) :=
  C8_theorem envC8 pC8 rShortEmpty (by rfl)

/-! ## Claim C9: the error boundary -/

/-- C9: every tool invocation either succeeds with the handler's response passed
through unchanged, or fails with the error caught at the dispatch boundary and
converted into exactly one `Error: <message>` text payload carrying nothing
else — no exception crosses the boundary and no partial scan data accompanies a
failure. -/
theorem C9_theorem (env : Env) (name : String) (args : Option JsArgs) :
    (∃ r, runCallTool env name args = .ok r ∧ handleCallTool env name args = r) ∨
    (∃ e, runCallTool env name args = .error e ∧
      handleCallTool env name args = ⟨[⟨"text", "Error: " ++ e⟩]⟩) := by
  cases hr : runCallTool env name args with
  | ok r => exact Or.inl ⟨r, rfl, by simp [handleCallTool, hr]⟩
  | error e => exact Or.inr ⟨e, rfl, by simp [handleCallTool, hr]⟩

/-! ## Claim C10: a zero limit is coerced to the default -/

/-- C10: a `limit` of 0 is falsy in JS, so the dispatcher substitutes the
default 50 before the scan starts; the invocation behaves exactly as if
`limit = 50` had been supplied — no zero-message response, no validation
error. -/
theorem C10_theorem (env : Env) (args : JsArgs) (h : args.limit = some 0) :
    jsOrNat args.limit 50 = 50 ∧
    runCallTool env "discord_get_messages_advanced" (some args) =
      runCallTool env "discord_get_messages_advanced"
        (some { args with limit := some 50 }) := by
  obtain ⟨cid, msg, ip, lim, bef, aft, sd, ed, kw, au, ha⟩ := args
  replace h : lim = some 0 := h
  subst h
  exact ⟨rfl, rfl⟩

/-- C10 (witness). -/
theorem C10_witness :
    jsOrNat argsW10.limit 50 = 50 ∧
    runCallTool (mkEnv []) "discord_get_messages_advanced" (some argsW10) =
      runCallTool (mkEnv []) "discord_get_messages_advanced"
        (some { argsW10 with limit := some 50 }) :=
  C10_theorem (mkEnv []) argsW10 rfl

end DiscordMCP
